import Mathlib

/-!
Verification of the GitHub repository downloader.

The repository contains two variants of the same page component:
* `part_000` — the API variant: real branch listing via the GitHub API
  (`fetchBranches` / `loadBranches`) and an archive retrieval that follows a
  manual redirect while streaming chunks with measured progress
  (`downloadWithAuth` / `handleDownload`).
* `Index.tsx` — the direct variant: hard-coded common branches, a
  fire-and-forget anchor-click download (`downloadRepository`) with simulated
  progress, and its own `handleDownload` (embedded here as
  `handleDownloadDirect`).

Both variants share `validateGitHubUrl` and `extractRepoInfo` verbatim.
JavaScript strings are modelled as Lean `String` (lists of characters),
regular-expression matching is unfolded into the equivalent explicit scans
(the character classes involved are disjoint from the delimiters, so the
greedy matches are forced and no backtracking arises), bytes are `Nat`, and
`Math.round(a / b * 100)` on exact inputs is modelled by round-half-up
rational rounding `jsRound`.
-/

/-- Character class of the regex `[\w.-]`: ASCII word characters plus dot and
dash (the JS `\w` without the `u` flag is `[A-Za-z0-9_]`). -/
def isWordDotDash (c : Char) : Bool :=
  c.isAlphanum || c == '_' || c == '.' || c == '-'

/-- The four characters of the literal suffix `.git`. -/
def gitSuffix : List Char := ['.', 'g', 'i', 't']

/-- `url.replace(/\.git$/, '')`: remove one trailing `.git` if present. -/
def stripGitSuffix (cs : List Char) : List Char :=
  if gitSuffix.isSuffixOf cs then cs.take (cs.length - 4) else cs

/-- The literal prefix of the validation regex
`^https:\/\/github\.com\/` (19 characters). -/
def urlStart : List Char := "https://github.com/".data

/-- The scheme part `https://` (8 characters); `urlStart = httpsPart ++ ghPattern`. -/
def httpsPart : List Char := "https://".data

/-- The literal `github.com/` searched for by `extractRepoInfo` (11 characters). -/
def ghPattern : List Char := "github.com/".data

/-- The part of the validation regex after the host:
`[\w.-]+\/[\w.-]+\/?$`.  Because `[\w.-]` never matches `/`, the greedy
segments are exactly the maximal `takeWhile` runs. -/
def matchOwnerRepoTail (cs : List Char) : Bool :=
  let owner := cs.takeWhile isWordDotDash
  let rest := cs.dropWhile isWordDotDash
  !owner.isEmpty &&
    match rest with
    | [] => false
    | c :: rest2 =>
      c == '/' &&
        (let repo := rest2.takeWhile isWordDotDash
         let rest3 := rest2.dropWhile isWordDotDash
         !repo.isEmpty && (rest3 == [] || rest3 == ['/']))

/-- `validateGitHubUrl` from the source: test
`/^https:\/\/github\.com\/[\w.-]+\/[\w.-]+\/?$/` against the input with a
trailing `.git` stripped first. -/
def validateGitHubUrl (url : String) : Bool :=
  let t := stripGitSuffix url.data
  urlStart.isPrefixOf t && matchOwnerRepoTail (t.drop urlStart.length)

/-- The `{owner, repo}` pair produced by `extractRepoInfo`. -/
structure RepoInfo where
  owner : String
  repo : String
deriving DecidableEq, Repr

/-- One attempt of the unanchored regex `github\.com\/([^\/]+)\/([^\/]+)` at a
fixed start position: the literal, then two nonempty runs of non-slash
characters separated by `/`.  Greediness is forced because `[^\/]` excludes
the delimiter. -/
def extractAt (cs : List Char) : Option (List Char × List Char) :=
  if ghPattern.isPrefixOf cs then
    let rest := cs.drop ghPattern.length
    let owner := rest.takeWhile (fun c => c != '/')
    let rest2 := rest.dropWhile (fun c => c != '/')
    if owner.isEmpty then none
    else
      match rest2 with
      | [] => none
      | _ :: rest3 =>
        let repo := rest3.takeWhile (fun c => c != '/')
        if repo.isEmpty then none else some (owner, repo)
  else none

/-- Leftmost-match search of `String.prototype.match`: try every start
position from the left and return the first success. -/
def scanExtract : List Char → Option (List Char × List Char)
  | [] => none
  | c :: cs =>
    match extractAt (c :: cs) with
    | some x => some x
    | none => scanExtract cs

/-- `extractRepoInfo` from the source: first match of
`github\.com\/([^\/]+)\/([^\/]+)`, with `.git` stripped from the repo group. -/
def extractRepoInfo (url : String) : Option RepoInfo :=
  (scanExtract url.data).map fun p =>
    { owner := String.mk p.1, repo := String.mk (stripGitSuffix p.2) }

/-- URL-to-identity resolution as both `loadBranches` and `handleDownload`
perform it: validate first, then extract. -/
def resolve (url : String) : Option RepoInfo :=
  if validateGitHubUrl url then extractRepoInfo url else none

/-- A nonempty run of `[\w.-]` characters (an owner or repo segment). -/
def IsSegment (cs : List Char) : Prop :=
  cs ≠ [] ∧ ∀ c ∈ cs, isWordDotDash c = true

/-- The canonical accepted shape, stated from the specification: after
stripping an optional trailing `.git`, the input is exactly
`https://github.com/<owner>/<repo>` with an optional trailing slash, where
both segments are nonempty runs of word characters, dots and dashes. -/
def CanonicalRepoUrl (url : String) : Prop :=
  ∃ o r : List Char, IsSegment o ∧ IsSegment r ∧
    (stripGitSuffix url.data = urlStart ++ o ++ '/' :: r ∨
     stripGitSuffix url.data = urlStart ++ o ++ '/' :: (r ++ ['/']))

/-- A branch as parsed from the branch-listing JSON: a name and a commit SHA. -/
structure Branch where
  name : String
  commitSha : String
deriving DecidableEq, Repr

/-- The default-branch computation of `loadBranches`:
`find 'main' || find 'master' || branchesData[0]` (JS `||` on the always-truthy
found object / `undefined`). -/
def defaultBranch (bs : List Branch) : Option Branch :=
  match bs.find? (fun b => b.name == "main") with
  | some b => some b
  | none =>
    match bs.find? (fun b => b.name == "master") with
    | some b => some b
    | none => bs.head?

/-- The default selection stated from the specification: `main` when present,
else `master` when present, else the first branch, else none. -/
def specDefaultBranchName (bs : List Branch) : Option String :=
  if bs.any (fun b => b.name == "main") then some "main"
  else if bs.any (fun b => b.name == "master") then some "master"
  else bs.head?.map Branch.name

/-- Shorthand for building a branch in concrete examples. -/
def mkBranch (n : String) : Branch := { name := n, commitSha := n }

/-- An HTTP response as the code observes it: a status, an optional
`location` header, an optional parsed `content-length` header (the code does
`contentLength ? parseInt(contentLength, 10) : 0`; we model the parsed
positive value, `none` standing for an absent or non-positive header), and
the body as a list of chunks of bytes (`none` models a body from which no
readable stream can be obtained). -/
structure HttpResponse where
  status : Nat
  location : Option String := none
  contentLength : Option Nat := none
  bodyChunks : Option (List (List Nat)) := none
deriving DecidableEq, Repr

/-- `response.ok` of the Fetch API: status in the range 200–299. -/
def respOk (r : HttpResponse) : Bool :=
  Nat.ble 200 r.status && Nat.ble r.status 299

/-- An outbound request as issued through the fetch boundary: the URL and the
token attached as an `Authorization` header (`none` = no such header). -/
structure Request where
  url : String
  authToken : Option String
deriving DecidableEq, Repr

/-- The fixed remote state a single attempt runs against: the response to the
branch-listing call, to the zipball API call, and to the follow-up archive
fetch, plus the parsed JSON body of a successful branch listing. -/
structure Remote where
  branchesResponse : HttpResponse
  branchesBody : List Branch
  apiResponse : HttpResponse
  archiveResponse : HttpResponse

/-- The apostrophe character, for building source messages. -/
def apostrophe : Char := Char.ofNat 39

/-- Message thrown by `fetchBranches` on status 404. -/
def branchesNotFoundMsg : String :=
  "Repository not found or you don" ++ apostrophe.toString ++ "t have access to it"

/-- Message thrown on status 401 (identical in `fetchBranches` and
`downloadWithAuth`). -/
def authMsg : String := "Invalid GitHub token or insufficient permissions"

/-- Message thrown by `downloadWithAuth` when a 302 carries no location. -/
def redirectMsg : String := "Failed to get download URL"

/-- Message thrown by `downloadWithAuth` when the archive body yields no
reader. -/
def streamMsg : String := "Failed to read download stream"

/-- The URL of the branch-listing endpoint. -/
def branchesApiUrl (owner repo : String) : String :=
  "https://api.github.com/repos/" ++ owner ++ "/" ++ repo ++ "/branches"

/-- The URL of the zipball API endpoint. -/
def apiZipballUrl (owner repo branch : String) : String :=
  "https://api.github.com/repos/" ++ owner ++ "/" ++ repo ++ "/zipball/" ++ branch

/-- Status mapping of `fetchBranches`: 404, then 401, then any other non-ok
status, else the parsed body. -/
def fetchBranchesResult (resp : HttpResponse) (body : List Branch) :
    Except String (List Branch) :=
  if resp.status == 404 then .error branchesNotFoundMsg
  else if resp.status == 401 then .error authMsg
  else if !(respOk resp) then .error ("GitHub API error: " ++ toString resp.status)
  else .ok body

/-- `fetchBranches` from the source: one GET to the branch-listing endpoint
with the token attached as `Authorization` exactly when present, then the
status mapping.  Also returns the requests issued. -/
def fetchBranches (owner repo : String) (token : Option String) (remote : Remote) :
    Except String (List Branch) × List Request :=
  (fetchBranchesResult remote.branchesResponse remote.branchesBody,
   [{ url := branchesApiUrl owner repo, authToken := token }])

/-- `Math.round(downloaded / total * 100)` modelled exactly on rationals:
round-half-up of `num / den`. -/
def jsRound (num den : Nat) : Nat := (2 * num + den) / (2 * den)

/-- `const total = contentLength ? parseInt(contentLength, 10) : 0`. -/
def parseTotal (contentLength : Option Nat) : Nat := contentLength.getD 0

/-- The progress values reported by the read loop of `downloadWithAuth`:
after each chunk, `downloaded += chunk.length`, and if `total > 0` report
`Math.round(downloaded / total * 100)`. -/
def progressReports (total : Nat) : Nat → List (List Nat) → List Nat
  | _, [] => []
  | downloaded, c :: rest =>
    if 0 < total then
      jsRound ((downloaded + c.length) * 100) total ::
        progressReports total (downloaded + c.length) rest
    else progressReports total (downloaded + c.length) rest

/-- The successive values of the `downloaded` byte counter of the read loop. -/
def receivedTrace : Nat → List (List Nat) → List Nat
  | _, [] => []
  | downloaded, c :: rest =>
    (downloaded + c.length) :: receivedTrace (downloaded + c.length) rest

/-- Total size of a chunk sequence. -/
def sumLens (chunks : List (List Nat)) : Nat := (chunks.map List.length).sum

/-- Terminal result of one archive retrieval: either the suggested filename,
the assembled byte buffer and the reported progress sequence, or the thrown
message. -/
inductive DownloadResult where
  | success (filename : String) (bytes : List Nat) (reports : List Nat)
  | failure (msg : String)
deriving DecidableEq, Repr

/-- Handling of the second (archive) response in `downloadWithAuth`: any
non-ok status throws `Download failed: <status>`; an ok response without a
readable stream throws the stream message; otherwise the chunks are streamed
with progress and concatenated, and the blob is saved as
`<repo>-<branch>.zip`. -/
def archiveFetchResult (repo branch : String) (resp : HttpResponse) : DownloadResult :=
  if respOk resp then
    match resp.bodyChunks with
    | none => .failure streamMsg
    | some chunks =>
      .success (repo ++ "-" ++ branch ++ ".zip") chunks.flatten
        (progressReports (parseTotal resp.contentLength) 0 chunks)
  else .failure ("Download failed: " ++ toString resp.status)

/-- `downloadWithAuth` from the source: a credentialed GET to the zipball
endpoint with redirects disabled; on 302 follow the `location` header with a
second uncredentialed fetch (no location throws the redirect message); 404
and 401 map to their messages; every other status throws
`GitHub API error: <status>`.  Also returns the requests issued. -/
def downloadWithAuth (owner repo branch : String) (token : Option String)
    (remote : Remote) : DownloadResult × List Request :=
  let req1 : Request := { url := apiZipballUrl owner repo branch, authToken := token }
  let resp := remote.apiResponse
  if resp.status == 302 then
    match resp.location with
    | none => (.failure redirectMsg, [req1])
    | some downloadUrl =>
      (archiveFetchResult repo branch remote.archiveResponse,
       [req1, { url := downloadUrl, authToken := none }])
  else if resp.status == 404 then (.failure "Repository or branch not found", [req1])
  else if resp.status == 401 then (.failure authMsg, [req1])
  else (.failure ("GitHub API error: " ++ toString resp.status), [req1])

/-- The session state read by the API variant's `handleDownload` and
`loadBranches`. -/
structure AppState where
  repoUrl : String
  selectedBranch : String
  token : String
  isPrivate : Bool
deriving DecidableEq, Repr

/-- Terminal outcome of one `handleDownload` attempt: the error message set,
or the success message set. -/
inductive Outcome where
  | failed (msg : String)
  | completed (msg : String)
deriving DecidableEq, Repr

/-- Outcome of `loadBranches`: silently skipped (empty or invalid URL, or no
extractable identity), or the loaded branch list together with the default
selection applied to `selectedBranch`, or the caught error message. -/
inductive BranchesOutcome where
  | skipped
  | loaded (branches : List Branch) (selected : Option String)
  | failed (msg : String)
deriving DecidableEq, Repr

/-- `loadBranches` from the source: validate and extract, then fetch the
branches with the token exactly when `isPrivate`, then compute the default
selection.  Also returns the requests issued. -/
def loadBranches (st : AppState) (remote : Remote) : BranchesOutcome × List Request :=
  if st.repoUrl == "" then (.skipped, [])
  else if !(validateGitHubUrl st.repoUrl) then (.skipped, [])
  else
    match extractRepoInfo st.repoUrl with
    | none => (.skipped, [])
    | some info =>
      match fetchBranches info.owner info.repo
          (if st.isPrivate then some st.token else none) remote with
      | (.ok bs, reqs) => (.loaded bs ((defaultBranch bs).map Branch.name), reqs)
      | (.error msg, reqs) => (.failed msg, reqs)

/-- `handleDownload` of the API variant: the four local checks in source
order, then identity extraction, then `downloadWithAuth` with the token
exactly when `isPrivate`.  Also returns the requests issued. -/
def handleDownload (st : AppState) (remote : Remote) : Outcome × List Request :=
  if st.repoUrl == "" then (.failed "Please enter a repository URL", [])
  else if !(validateGitHubUrl st.repoUrl) then
    (.failed "Please enter a valid GitHub repository URL", [])
  else if st.selectedBranch == "" then
    (.failed "Please select a branch to download", [])
  else if st.isPrivate && st.token == "" then
    (.failed "Private repositories require a GitHub token", [])
  else
    match extractRepoInfo st.repoUrl with
    | none => (.failed "Could not parse repository information", [])
    | some info =>
      match downloadWithAuth info.owner info.repo st.selectedBranch
          (if st.isPrivate then some st.token else none) remote with
      | (.success _ _ _, reqs) =>
        (.completed ("Successfully downloaded " ++ info.repo ++ " (" ++
          st.selectedBranch ++ " branch)"), reqs)
      | (.failure msg, reqs) => (.failed ("Download failed: " ++ msg), reqs)

/-- The messages of the locally detected failures of the API variant's
`handleDownload` (the specification's `ValidationError` class): all are
raised before any request is issued. -/
def validationMsgs : List String :=
  ["Please enter a repository URL",
   "Please enter a valid GitHub repository URL",
   "Please select a branch to download",
   "Private repositories require a GitHub token",
   "Could not parse repository information"]

/-- The progress values reported by the simulated interval of the direct
variant's `downloadRepository`: starting from 0, repeatedly add 15 and
report, stopping once the reported value reaches 100. -/
def simulatedReports (progress : Nat) : List Nat :=
  if 100 ≤ progress + 15 then [progress + 15]
  else (progress + 15) :: simulatedReports (progress + 15)
termination_by 100 - progress
decreasing_by simp_wf; omega

/-- The direct per-branch archive URL used by the direct variant. -/
def archiveZipUrl (owner repo branch : String) : String :=
  "https://github.com/" ++ owner ++ "/" ++ repo ++ "/archive/refs/heads/" ++
    branch ++ ".zip"

/-- What the direct variant's `downloadRepository` does: it builds the
archive URL, triggers the host download with the suggested filename, and
reports simulated progress.  It observes no response status and cannot fail
apart from DOM exceptions. -/
structure DirectDownload where
  downloadUrl : String
  filename : String
  reports : List Nat
deriving DecidableEq, Repr

/-- `downloadRepository` from the direct variant. -/
def downloadRepository (owner repo branch : String) : DirectDownload :=
  { downloadUrl := archiveZipUrl owner repo branch,
    filename := repo ++ "-" ++ branch ++ ".zip",
    reports := simulatedReports 0 }

/-- The session state read by the direct variant's `handleDownload`. -/
structure AppStateDirect where
  repoUrl : String
  selectedBranch : String
  customBranch : String
  token : String
  isPrivate : Bool
deriving DecidableEq, Repr

/-- Terminal outcome of the direct variant's `handleDownload`. -/
inductive OutcomeDirect where
  | failed (msg : String)
  | initiated (msg : String) (download : DirectDownload)
deriving DecidableEq, Repr

/-- `customBranch || selectedBranch` of the direct variant's
`handleDownload` (`Index.tsx`): the custom branch overrides the selection
when nonempty.  The handler below performs the URL checks, then extraction,
then the unconditional download trigger; it consults neither `isPrivate` nor
`token`. -/
def finalBranch (st : AppStateDirect) : String :=
  if st.customBranch == "" then st.selectedBranch else st.customBranch

/-- The body of the direct variant's `handleDownload` after the branch
resolution `const finalBranch = customBranch || selectedBranch`. -/
def handleDownloadDirect (st : AppStateDirect) : OutcomeDirect :=
  if st.repoUrl == "" then .failed "Please enter a repository URL"
  else if !(validateGitHubUrl st.repoUrl) then
    .failed "Please enter a valid GitHub repository URL"
  else if finalBranch st == "" then
    .failed "Please select a branch or enter a custom branch name"
  else
    match extractRepoInfo st.repoUrl with
    | none => .failed "Could not parse repository information"
    | some info =>
      .initiated ("Download initiated for " ++ info.repo ++ " (" ++ finalBranch st ++
        " branch). Check your downloads folder.")
        (downloadRepository info.owner info.repo (finalBranch st))

/-- The messages of the locally detected failures of the direct variant's
`handleDownload`. -/
def directValidationMsgs : List String :=
  ["Please enter a repository URL",
   "Please enter a valid GitHub repository URL",
   "Please select a branch or enter a custom branch name",
   "Could not parse repository information"]

/-- The two messages the code maps a not-found condition to (the
specification's `NotFoundError` kind). -/
def notFoundMsgs : List String :=
  [branchesNotFoundMsg, "Repository or branch not found"]

/-! ### List helpers for the greedy regex scans -/

/-- `isPrefixOf` over characters agrees with the existence of a suffix. -/
theorem isPrefixOf_eq_true (l1 l2 : List Char) :
    l1.isPrefixOf l2 = true ↔ ∃ t, l2 = l1 ++ t := by
  induction l1 generalizing l2 with
  | nil => simp [List.isPrefixOf]
  | cons a m ih =>
    cases l2 with
    | nil => simp [List.isPrefixOf]
    | cons b k =>
      simp only [List.isPrefixOf, Bool.and_eq_true, beq_iff_eq, ih, List.cons_append]
      constructor
      · rintro ⟨rfl, t, rfl⟩; exact ⟨t, rfl⟩
      · rintro ⟨t, h⟩
        injection h with h1 h2
        exact ⟨h1.symm, t, h2⟩

/-- A `takeWhile` across a satisfied block stops exactly at the first
violating element. -/
theorem takeWhile_append_block (p : Char → Bool) (l1 l2 : List Char) (a : Char)
    (h1 : ∀ x ∈ l1, p x = true) (ha : p a = false) :
    (l1 ++ a :: l2).takeWhile p = l1 := by
  induction l1 with
  | nil => simp [List.takeWhile_cons, ha]
  | cons b m ih =>
    have hb : p b = true := h1 b (by simp)
    simp only [List.cons_append, List.takeWhile_cons, hb, if_true]
    rw [ih (fun x hx => h1 x (by simp [hx]))]

/-- The matching `dropWhile`. -/
theorem dropWhile_append_block (p : Char → Bool) (l1 l2 : List Char) (a : Char)
    (h1 : ∀ x ∈ l1, p x = true) (ha : p a = false) :
    (l1 ++ a :: l2).dropWhile p = a :: l2 := by
  induction l1 with
  | nil => simp [List.dropWhile_cons, ha]
  | cons b m ih =>
    have hb : p b = true := h1 b (by simp)
    simp only [List.cons_append, List.dropWhile_cons, hb, if_true]
    exact ih (fun x hx => h1 x (by simp [hx]))

/-- `takeWhile` keeps a fully satisfied list. -/
theorem takeWhile_of_all (p : Char → Bool) (l : List Char)
    (h : ∀ x ∈ l, p x = true) : l.takeWhile p = l := by
  induction l with
  | nil => rfl
  | cons b m ih =>
    have hb : p b = true := h b (by simp)
    simp only [List.takeWhile_cons, hb, if_true]
    rw [ih (fun x hx => h x (by simp [hx]))]

/-- `dropWhile` empties a fully satisfied list. -/
theorem dropWhile_of_all (p : Char → Bool) (l : List Char)
    (h : ∀ x ∈ l, p x = true) : l.dropWhile p = [] := by
  induction l with
  | nil => rfl
  | cons b m ih =>
    have hb : p b = true := h b (by simp)
    simp only [List.dropWhile_cons, hb, if_true]
    exact ih (fun x hx => h x (by simp [hx]))

/-- Word characters are never the slash delimiter. -/
theorem word_ne_slash {c : Char} (h : isWordDotDash c = true) : (c == '/') = false := by
  cases hcc : (c == '/') with
  | false => rfl
  | true =>
    have hc : c = '/' := eq_of_beq hcc
    rw [hc] at h
    exact absurd h (by decide)

/-- Word characters satisfy the `[^\/]` class of `extractRepoInfo`. -/
theorem word_bne_slash {c : Char} (h : isWordDotDash c = true) : (c != '/') = true := by
  simp [bne, word_ne_slash h]

/-! ### Characterisation of the URL validator -/

/-- The slash character fails the word class. -/
theorem slash_not_word : isWordDotDash '/' = false := by decide

/-- The tail matcher accepts exactly `owner/repo` with an optional final
slash, both segments nonempty word runs. -/
theorem matchOwnerRepoTail_eq_true (cs : List Char) :
    matchOwnerRepoTail cs = true ↔
      ∃ o r : List Char, IsSegment o ∧ IsSegment r ∧
        (cs = o ++ '/' :: r ∨ cs = o ++ '/' :: (r ++ ['/'])) := by
  constructor
  · intro h
    unfold matchOwnerRepoTail at h
    rw [Bool.and_eq_true] at h
    obtain ⟨hne, hrest⟩ := h
    have hsplit := List.takeWhile_append_dropWhile isWordDotDash cs
    cases hdrop : cs.dropWhile isWordDotDash with
    | nil => rw [hdrop] at hrest; exact absurd hrest (by decide)
    | cons c rest2 =>
      rw [hdrop] at hrest
      rw [Bool.and_eq_true] at hrest
      obtain ⟨hc, hinner⟩ := hrest
      have hc' : c = '/' := eq_of_beq hc
      rw [Bool.and_eq_true] at hinner
      obtain ⟨hrne, hrest3⟩ := hinner
      refine ⟨cs.takeWhile isWordDotDash, rest2.takeWhile isWordDotDash, ?_, ?_, ?_⟩
      · constructor
        · intro hnil
          rw [hnil] at hne
          exact absurd hne (by decide)
        · intro x hx
          exact List.mem_takeWhile_imp hx
      · constructor
        · intro hnil
          rw [hnil] at hrne
          exact absurd hrne (by decide)
        · intro x hx
          exact List.mem_takeWhile_imp hx
      · have hsplit2 := List.takeWhile_append_dropWhile isWordDotDash rest2
        rw [Bool.or_eq_true] at hrest3
        rcases hrest3 with h3 | h3
        · left
          have h3' : rest2.dropWhile isWordDotDash = [] := eq_of_beq h3
          rw [h3', List.append_nil] at hsplit2
          calc cs = cs.takeWhile isWordDotDash ++ cs.dropWhile isWordDotDash := hsplit.symm
            _ = cs.takeWhile isWordDotDash ++ '/' :: rest2 := by rw [hdrop, hc']
            _ = cs.takeWhile isWordDotDash ++ '/' :: rest2.takeWhile isWordDotDash := by
                  rw [hsplit2]
        · right
          have h3' : rest2.dropWhile isWordDotDash = ['/'] := eq_of_beq h3
          rw [h3'] at hsplit2
          calc cs = cs.takeWhile isWordDotDash ++ cs.dropWhile isWordDotDash := hsplit.symm
            _ = cs.takeWhile isWordDotDash ++ '/' :: rest2 := by rw [hdrop, hc']
            _ = cs.takeWhile isWordDotDash ++
                  '/' :: (rest2.takeWhile isWordDotDash ++ ['/']) := by rw [hsplit2]
  · rintro ⟨o, r, ⟨hon, how⟩, ⟨hrn, hrw⟩, hcase⟩
    have honE : o.isEmpty = false := by
      cases o with
      | nil => exact absurd rfl hon
      | cons _ _ => rfl
    have hrnE : r.isEmpty = false := by
      cases r with
      | nil => exact absurd rfl hrn
      | cons _ _ => rfl
    rcases hcase with rfl | rfl
    · unfold matchOwnerRepoTail
      rw [takeWhile_append_block isWordDotDash o r '/' how slash_not_word]
      rw [dropWhile_append_block isWordDotDash o r '/' how slash_not_word]
      simp [takeWhile_of_all isWordDotDash r hrw, dropWhile_of_all isWordDotDash r hrw,
        honE, hrnE]
    · unfold matchOwnerRepoTail
      rw [takeWhile_append_block isWordDotDash o (r ++ ['/']) '/' how slash_not_word]
      rw [dropWhile_append_block isWordDotDash o (r ++ ['/']) '/' how slash_not_word]
      simp [takeWhile_append_block isWordDotDash r [] '/' hrw slash_not_word,
        dropWhile_append_block isWordDotDash r [] '/' hrw slash_not_word, honE, hrnE]

/-- The validator accepts exactly the canonical shape. -/
theorem validateGitHubUrl_iff (url : String) :
    validateGitHubUrl url = true ↔ CanonicalRepoUrl url := by
  unfold validateGitHubUrl CanonicalRepoUrl
  rw [Bool.and_eq_true]
  constructor
  · rintro ⟨hpre, hm⟩
    obtain ⟨u, hu⟩ := (isPrefixOf_eq_true _ _).mp hpre
    have hdropu : (stripGitSuffix url.data).drop urlStart.length = u := by
      rw [hu, List.drop_left]
    rw [hdropu] at hm
    obtain ⟨o, r, ho, hr, hcase⟩ := (matchOwnerRepoTail_eq_true u).mp hm
    refine ⟨o, r, ho, hr, ?_⟩
    rcases hcase with rfl | rfl
    · left; rw [hu, List.append_assoc]
    · right; rw [hu, List.append_assoc]
  · rintro ⟨o, r, ho, hr, hcase⟩
    rcases hcase with hs | hs
    · have hs' : stripGitSuffix url.data = urlStart ++ (o ++ '/' :: r) := by
        rw [hs, List.append_assoc]
      constructor
      · exact (isPrefixOf_eq_true _ _).mpr ⟨_, hs'⟩
      · rw [hs', List.drop_left]
        exact (matchOwnerRepoTail_eq_true _).mpr ⟨o, r, ho, hr, Or.inl rfl⟩
    · have hs' : stripGitSuffix url.data = urlStart ++ (o ++ '/' :: (r ++ ['/'])) := by
        rw [hs, List.append_assoc]
      constructor
      · exact (isPrefixOf_eq_true _ _).mpr ⟨_, hs'⟩
      · rw [hs', List.drop_left]
        exact (matchOwnerRepoTail_eq_true _).mpr ⟨o, r, ho, hr, Or.inr rfl⟩

/-! ### Success of `extractRepoInfo` on validated inputs -/

/-- Every string either has no trailing `.git` (stripping is the identity) or
is its stripped form with `.git` appended. -/
theorem stripGitSuffix_cases (cs : List Char) :
    cs = stripGitSuffix cs ∨ cs = stripGitSuffix cs ++ gitSuffix := by
  unfold stripGitSuffix
  by_cases h : gitSuffix.isSuffixOf cs
  · right
    rw [if_pos h]
    obtain ⟨pre, hpre⟩ : ∃ pre, cs = pre ++ gitSuffix := by
      obtain ⟨pre, hpre⟩ := (List.isSuffixOf_iff_suffix.mp h)
      exact ⟨pre, hpre.symm⟩
    have hlen : cs.length - 4 = pre.length := by
      rw [hpre, List.length_append]
      rfl
    rw [hlen, hpre, List.take_left]
  · left
    rw [if_neg h]

/-- If the pattern matches at some split point, the left-to-right scan
succeeds. -/
theorem scanExtract_isSome_append (l1 l2 : List Char)
    (h : (extractAt l2).isSome = true) :
    (scanExtract (l1 ++ l2)).isSome = true := by
  induction l1 with
  | nil =>
    rw [List.nil_append]
    cases l2 with
    | nil => exact absurd h (by decide)
    | cons c cs =>
      unfold scanExtract
      cases hx : extractAt (c :: cs) with
      | some x => rfl
      | none => rw [hx] at h; exact absurd h (by decide)
  | cons a m ih =>
    rw [List.cons_append]
    unfold scanExtract
    cases hx : extractAt (a :: (m ++ l2)) with
    | some x => rfl
    | none => exact ih

/-- At the position of the `github.com/` literal of a canonical URL, one
pattern attempt succeeds: the owner segment, the slash, and a repo group
that starts with a word character. -/
theorem extractAt_isSome (o z : List Char) (hon : o ≠ [])
    (how : ∀ c ∈ o, isWordDotDash c = true)
    (c : Char) (zs : List Char) (hz : z = c :: zs) (hc : isWordDotDash c = true) :
    (extractAt (ghPattern ++ (o ++ '/' :: z))).isSome = true := by
  have hpre : ghPattern.isPrefixOf (ghPattern ++ (o ++ '/' :: z)) = true :=
    (isPrefixOf_eq_true _ _).mpr ⟨_, rfl⟩
  have hslash : ((fun x => x != '/') '/') = false := by decide
  have how' : ∀ x ∈ o, ((fun x => x != '/') x) = true :=
    fun x hx => word_bne_slash (how x hx)
  have honE : o.isEmpty = false := by
    cases o with
    | nil => exact absurd rfl hon
    | cons _ _ => rfl
  have hrepoE : (z.takeWhile (fun x => x != '/')).isEmpty = false := by
    rw [hz, @List.takeWhile_cons_of_pos Char (fun x => x != '/') c zs (word_bne_slash hc)]
    rfl
  unfold extractAt
  simp [hpre, List.drop_left,
    takeWhile_append_block (fun x => x != '/') o z '/' how' hslash,
    dropWhile_append_block (fun x => x != '/') o z '/' how' hslash,
    honE, hrepoE]

/-- On any URL the validator accepts, extraction succeeds. -/
theorem validate_implies_extract (url : String) (h : validateGitHubUrl url = true) :
    (extractRepoInfo url).isSome = true := by
  obtain ⟨o, r, ⟨hon, how⟩, ⟨hrn, hrw⟩, hcase⟩ := (validateGitHubUrl_iff url).mp h
  obtain ⟨c, zs, hr⟩ : ∃ c zs, r = c :: zs := by
    cases r with
    | nil => exact absurd rfl hrn
    | cons c zs => exact ⟨c, zs, rfl⟩
  have hc : isWordDotDash c = true := hrw c (by rw [hr]; exact List.mem_cons_self c zs)
  have hps : urlStart = httpsPart ++ ghPattern := by decide
  have hget : ∀ z : List Char, url.data = httpsPart ++ (ghPattern ++ (o ++ '/' :: z)) →
      (∃ c2 zs2, z = c2 :: zs2 ∧ isWordDotDash c2 = true) →
      (extractRepoInfo url).isSome = true := by
    rintro z hdata ⟨c2, zs2, hz, hc2⟩
    unfold extractRepoInfo
    have hs := scanExtract_isSome_append httpsPart (ghPattern ++ (o ++ '/' :: z))
      (extractAt_isSome o z hon how c2 zs2 hz hc2)
    rw [hdata]
    cases hscan : scanExtract (httpsPart ++ (ghPattern ++ (o ++ '/' :: z))) with
    | none => rw [hscan] at hs; exact absurd hs (by decide)
    | some p => rfl
  rcases stripGitSuffix_cases url.data with hsg | hsg <;> rcases hcase with hcs | hcs
  · refine hget r ?_ ⟨c, zs, hr, hc⟩
    rw [hsg, hcs, hps]
    simp [List.append_assoc]
  · refine hget (r ++ ['/']) ?_ ⟨c, zs ++ ['/'], by rw [hr]; rfl, hc⟩
    rw [hsg, hcs, hps]
    simp [List.append_assoc]
  · refine hget (r ++ gitSuffix) ?_ ⟨c, zs ++ gitSuffix, by rw [hr]; rfl, hc⟩
    rw [hsg, hcs, hps]
    simp [List.append_assoc]
  · refine hget (r ++ ['/'] ++ gitSuffix) ?_ ⟨c, zs ++ ['/'] ++ gitSuffix, by rw [hr]; rfl, hc⟩
    rw [hsg, hcs, hps]
    simp [List.append_assoc]

/-- Resolution succeeds exactly on the canonical shape. -/
theorem resolve_isSome_iff (url : String) :
    (resolve url).isSome = true ↔ CanonicalRepoUrl url := by
  unfold resolve
  cases hv : validateGitHubUrl url with
  | true =>
    rw [if_pos rfl]
    constructor
    · intro _
      exact (validateGitHubUrl_iff url).mp hv
    · intro _
      exact validate_implies_extract url hv
  | false =>
    rw [if_neg (by decide)]
    constructor
    · intro hfalse
      exact absurd hfalse (by decide)
    · intro hcan
      have := (validateGitHubUrl_iff url).mpr hcan
      rw [hv] at this
      exact absurd this (by decide)

/-- A `Download failed:` message can never be the parse-failure message. -/
theorem downloadFailed_ne_parse (m : String) :
    ("Download failed: " ++ m) ≠ "Could not parse repository information" := by
  intro h
  have h2 := congrArg String.data h
  rw [String.data_append] at h2
  have e1 : "Download failed: ".data = 'D' :: "ownload failed: ".data := rfl
  have e2 : "Could not parse repository information".data =
      'C' :: "ould not parse repository information".data := rfl
  rw [e1, e2, List.cons_append] at h2
  injection h2 with hhead _
  exact absurd hhead (by decide)

/-! ### Claim C1 — URL resolution -/

/-- C1. URL resolution succeeds exactly on the canonical
`https://github.com/<owner>/<repo>` shape, where an optional trailing `.git`
is stripped first and an optional trailing slash is tolerated; the three
sample URLs all resolve to `{owner := "acme", repo := "widgets"}`, and the
listed deviant shapes (missing or wrong scheme, extra path segment, wrong
host, empty segment) are all rejected.  The embedding is pure, so rejection
involves no network access. -/
theorem c1_url_resolution :
    (∀ url : String, (resolve url).isSome = true ↔ CanonicalRepoUrl url) ∧
    resolve "https://github.com/acme/widgets.git" =
      some { owner := "acme", repo := "widgets" } ∧
    resolve "https://github.com/acme/widgets/" =
      some { owner := "acme", repo := "widgets" } ∧
    resolve "https://github.com/acme/widgets" =
      some { owner := "acme", repo := "widgets" } ∧
    resolve "github.com/acme/widgets" = none ∧
    resolve "http://github.com/acme/widgets" = none ∧
    resolve "https://github.com/acme/widgets/tree/main" = none ∧
    resolve "https://gitlab.com/acme/widgets" = none ∧
    resolve "https://github.com//widgets" = none ∧
    resolve "https://github.com/acme/" = none :=
  ⟨resolve_isSome_iff, by decide, by decide, by decide, by decide, by decide,
   by decide, by decide, by decide, by decide⟩

/-- C1 witness: the characterisation applied to a concrete accepted URL. -/
theorem c1_url_resolution_witness :
    CanonicalRepoUrl "https://github.com/acme/widgets" :=
  (c1_url_resolution.1 "https://github.com/acme/widgets").mp (by decide)

/-! ### Claim C9 — validated URLs always extract -/

/-- C9. Whenever `validateGitHubUrl` accepts, `extractRepoInfo` returns an
identity, so the `Could not parse repository information` branch of the API
variant's `handleDownload` is unreachable once validation has passed. -/
theorem c9_validated_extraction :
    (∀ url : String, validateGitHubUrl url = true →
       (extractRepoInfo url).isSome = true) ∧
    (∀ (st : AppState) (remote : Remote), validateGitHubUrl st.repoUrl = true →
       (handleDownload st remote).1 ≠
         Outcome.failed "Could not parse repository information") := by
  refine ⟨validate_implies_extract, ?_⟩
  intro st remote hv h
  unfold handleDownload at h
  split at h
  · exact absurd h (by decide)
  · split at h
    · rename_i hcond
      rw [hv] at hcond
      exact absurd hcond (by decide)
    · split at h
      · exact absurd h (by decide)
      · split at h
        · exact absurd h (by decide)
        · split at h
          · rename_i heq
            have hsome := validate_implies_extract st.repoUrl hv
            rw [heq] at hsome
            exact absurd hsome (by decide)
          · split at h
            · exact Outcome.noConfusion h
            · rename_i info hmsg
              have := Outcome.failed.inj h
              exact downloadFailed_ne_parse _ this

/-- C9 witness: a concrete validated URL extracts successfully. -/
theorem c9_validated_extraction_witness :
    (extractRepoInfo "https://github.com/acme/widgets").isSome = true :=
  c9_validated_extraction.1 "https://github.com/acme/widgets" (by decide)

/-! ### Claim C3 — default branch selection -/

/-- `any` is invariant under permutation. -/
theorem perm_any_eq {α : Type} (p : α → Bool) {l1 l2 : List α} (h : l1.Perm l2) :
    l1.any p = l2.any p := by
  cases h1 : l1.any p with
  | true =>
    obtain ⟨x, hx, hpx⟩ := List.any_eq_true.mp h1
    exact (List.any_eq_true.mpr ⟨x, h.mem_iff.mp hx, hpx⟩).symm
  | false =>
    cases h2 : l2.any p with
    | false => rfl
    | true =>
      obtain ⟨x, hx, hpx⟩ := List.any_eq_true.mp h2
      have := List.any_eq_true.mpr ⟨x, h.mem_iff.mpr hx, hpx⟩
      rw [h1] at this
      exact absurd this (by decide)

/-- The name of the code's default branch agrees with the specification's
preference order pointwise. -/
theorem defaultBranch_name_eq_spec (bs : List Branch) :
    (defaultBranch bs).map Branch.name = specDefaultBranchName bs := by
  unfold defaultBranch specDefaultBranchName
  cases hmain : bs.find? (fun b => b.name == "main") with
  | some b =>
    have hb : b.name = "main" := by simpa using List.find?_some hmain
    have hany : bs.any (fun b => b.name == "main") = true :=
      List.any_eq_true.mpr ⟨b, List.mem_of_find?_eq_some hmain, by simp [hb]⟩
    rw [if_pos hany]
    simp [hb]
  | none =>
    have hany : bs.any (fun b => b.name == "main") = false := by
      rw [List.any_eq_false]
      exact List.find?_eq_none.mp hmain
    rw [if_neg (by rw [hany]; exact Bool.false_ne_true)]
    cases hmaster : bs.find? (fun b => b.name == "master") with
    | some b =>
      have hb : b.name = "master" := by simpa using List.find?_some hmaster
      have hany2 : bs.any (fun b => b.name == "master") = true :=
        List.any_eq_true.mpr ⟨b, List.mem_of_find?_eq_some hmaster, by simp [hb]⟩
      rw [if_pos hany2]
      simp [hb]
    | none =>
      have hany2 : bs.any (fun b => b.name == "master") = false := by
        rw [List.any_eq_false]
        exact List.find?_eq_none.mp hmaster
      rw [if_neg (by rw [hany2]; exact Bool.false_ne_true)]

/-- When `main` or `master` occurs in the listing, the selected name does not
depend on the remote's ordering. -/
theorem defaultBranch_perm_invariant (bs bs2 : List Branch) (h : bs.Perm bs2)
    (hmm : (bs.any (fun b => b.name == "main") ||
            bs.any (fun b => b.name == "master")) = true) :
    (defaultBranch bs).map Branch.name = (defaultBranch bs2).map Branch.name := by
  rw [defaultBranch_name_eq_spec, defaultBranch_name_eq_spec]
  have hmain := perm_any_eq (fun b => b.name == "main") h
  have hmaster := perm_any_eq (fun b => b.name == "master") h
  unfold specDefaultBranchName
  rw [← hmain, ← hmaster]
  by_cases h1 : bs.any (fun b => b.name == "main") = true
  · rw [if_pos h1, if_pos h1]
  · have h1f : bs.any (fun b => b.name == "main") = false := by
      cases hb : bs.any (fun b => b.name == "main") with
      | false => rfl
      | true => exact absurd hb h1
    have h2 : bs.any (fun b => b.name == "master") = true := by
      rw [h1f, Bool.false_or] at hmm
      exact hmm
    rw [if_neg h1, if_neg h1, if_pos h2, if_pos h2]

/-- C3. The default branch selection is the deterministic preference
`main`, else `master`, else the first returned branch, else none; the
selected name is permutation-invariant whenever `main` or `master` occurs;
and the three sample listings select `main`, `master` and `dev`. -/
theorem c3_default_branch_selection :
    (∀ bs : List Branch, (defaultBranch bs).map Branch.name = specDefaultBranchName bs) ∧
    (∀ bs bs2 : List Branch, bs.Perm bs2 →
       (bs.any (fun b => b.name == "main") ||
        bs.any (fun b => b.name == "master")) = true →
       (defaultBranch bs).map Branch.name = (defaultBranch bs2).map Branch.name) ∧
    (defaultBranch [mkBranch "dev", mkBranch "master", mkBranch "main"]).map Branch.name =
      some "main" ∧
    (defaultBranch [mkBranch "dev", mkBranch "master"]).map Branch.name = some "master" ∧
    (defaultBranch [mkBranch "dev"]).map Branch.name = some "dev" ∧
    defaultBranch ([] : List Branch) = none :=
  ⟨defaultBranch_name_eq_spec, defaultBranch_perm_invariant,
   by decide, by decide, by decide, rfl⟩

/-- C3 witness: order-independence applied to a concrete permutation. -/
theorem c3_default_branch_selection_witness :
    (defaultBranch [mkBranch "main", mkBranch "dev"]).map Branch.name =
      (defaultBranch [mkBranch "dev", mkBranch "main"]).map Branch.name :=
  c3_default_branch_selection.2.1 [mkBranch "main", mkBranch "dev"]
    [mkBranch "dev", mkBranch "main"] (by decide) (by decide)

/-! ### Claim C4 — progress invariants -/

/-- Rounding is monotone in the numerator. -/
theorem jsRound_mono {a b den : Nat} (h : a ≤ b) : jsRound a den ≤ jsRound b den :=
  Nat.div_le_div_right (by omega)

/-- Rounding stays at or below 100 while the numerator stays at or below
`100 * den`. -/
theorem jsRound_le_100 {num den : Nat} (hden : 0 < den) (h : num ≤ 100 * den) :
    jsRound num den ≤ 100 := by
  unfold jsRound
  have h2 : (2 * num + den) / (2 * den) < 101 :=
    (Nat.div_lt_iff_lt_mul (by omega)).mpr (by omega)
  omega

/-- Rounding the full total gives exactly 100. -/
theorem jsRound_full (den : Nat) (hden : 0 < den) : jsRound (den * 100) den = 100 := by
  unfold jsRound
  have h1 : 2 * (den * 100) + den = 2 * den * 100 + den := by ring
  rw [h1, Nat.mul_add_div (by omega)]
  rw [Nat.div_eq_of_lt (by omega)]

/-- Every later report is at least the report of the current byte count. -/
theorem progressReports_ge (total : Nat) :
    ∀ (chunks : List (List Nat)) (d x : Nat), x ∈ progressReports total d chunks →
      jsRound (d * 100) total ≤ x := by
  intro chunks
  induction chunks with
  | nil => intro d x hx; exact absurd hx (by simp [progressReports])
  | cons c rest ih =>
    intro d x hx
    by_cases htot : 0 < total
    · rw [progressReports, if_pos htot] at hx
      rcases List.mem_cons.mp hx with hx | hx
      · rw [hx]
        exact jsRound_mono (by omega)
      · exact le_trans (jsRound_mono (by omega)) (ih (d + c.length) x hx)
    · rw [progressReports, if_neg htot] at hx
      exact le_trans (jsRound_mono (by omega)) (ih (d + c.length) x hx)

/-- The reported progress sequence is non-decreasing. -/
theorem progressReports_pairwise (total : Nat) :
    ∀ (chunks : List (List Nat)) (d : Nat),
      List.Pairwise (· ≤ ·) (progressReports total d chunks) := by
  intro chunks
  induction chunks with
  | nil => intro d; simp [progressReports]
  | cons c rest ih =>
    intro d
    by_cases htot : 0 < total
    · rw [progressReports, if_pos htot]
      exact List.Pairwise.cons (fun x hx => progressReports_ge total rest (d + c.length) x hx)
        (ih (d + c.length))
    · rw [progressReports, if_neg htot]
      exact ih (d + c.length)

/-- Every later byte count is at least the current one. -/
theorem receivedTrace_ge :
    ∀ (chunks : List (List Nat)) (d x : Nat), x ∈ receivedTrace d chunks → d ≤ x := by
  intro chunks
  induction chunks with
  | nil => intro d x hx; exact absurd hx (by simp [receivedTrace])
  | cons c rest ih =>
    intro d x hx
    rw [receivedTrace] at hx
    rcases List.mem_cons.mp hx with hx | hx
    · omega
    · have := ih (d + c.length) x hx
      omega

/-- The byte counter is non-decreasing over the read loop. -/
theorem receivedTrace_pairwise :
    ∀ (chunks : List (List Nat)) (d : Nat),
      List.Pairwise (· ≤ ·) (receivedTrace d chunks) := by
  intro chunks
  induction chunks with
  | nil => intro d; simp [receivedTrace]
  | cons c rest ih =>
    intro d
    rw [receivedTrace]
    exact List.Pairwise.cons
      (fun x hx => le_trans (by omega) (receivedTrace_ge rest (d + c.length) x hx))
      (ih (d + c.length))

/-- While the received bytes stay within the declared total, every report is
at most 100. -/
theorem progressReports_le_100 (total : Nat) :
    ∀ (chunks : List (List Nat)) (d x : Nat), 0 < total → d + sumLens chunks ≤ total →
      x ∈ progressReports total d chunks → x ≤ 100 := by
  intro chunks
  induction chunks with
  | nil => intro d x _ _ hx; exact absurd hx (by simp [progressReports])
  | cons c rest ih =>
    intro d x htot hle hx
    have hsum : sumLens (c :: rest) = c.length + sumLens rest := by
      simp [sumLens]
    rw [progressReports, if_pos htot] at hx
    rcases List.mem_cons.mp hx with hx | hx
    · rw [hx]
      exact jsRound_le_100 htot (by omega)
    · exact ih (d + c.length) x htot (by omega) hx

/-- When the chunks sum exactly to a positive declared total, the final
report is exactly 100. -/
theorem progressReports_getLast (total : Nat) :
    ∀ (chunks : List (List Nat)) (d : Nat), 0 < total → chunks ≠ [] →
      d + sumLens chunks = total →
      (progressReports total d chunks).getLast? = some 100 := by
  intro chunks
  induction chunks with
  | nil => intro d _ hne _; exact absurd rfl hne
  | cons c rest ih =>
    intro d htot _ hsum
    have hsumc : sumLens (c :: rest) = c.length + sumLens rest := by
      simp [sumLens]
    cases rest with
    | nil =>
      have hd : d + c.length = total := by
        rw [hsumc] at hsum
        simp [sumLens] at hsum
        omega
      rw [progressReports, if_pos htot]
      rw [progressReports]
      rw [List.getLast?_singleton]
      rw [hd, jsRound_full total htot]
    | cons c2 rest2 =>
      rw [progressReports, if_pos htot]
      have hne2 : progressReports total (d + c.length) (c2 :: rest2) ≠ [] := by
        rw [progressReports, if_pos htot]
        exact List.cons_ne_nil _ _
      cases hrep : progressReports total (d + c.length) (c2 :: rest2) with
      | nil => exact absurd hrep hne2
      | cons y ys =>
        have hih := ih (d + c.length) htot (List.cons_ne_nil _ _)
          (by rw [hsumc] at hsum; omega)
        rw [hrep] at hih
        rw [List.getLast?_cons_cons]
        exact hih

/-- The simulated progress of the direct variant evaluates to its seven
fifteens, ending beyond 100. -/
theorem simulatedReports_value :
    simulatedReports 0 = [15, 30, 45, 60, 75, 90, 105] := by
  rw [simulatedReports]
  norm_num
  rw [simulatedReports]
  norm_num
  rw [simulatedReports]
  norm_num
  rw [simulatedReports]
  norm_num
  rw [simulatedReports]
  norm_num
  rw [simulatedReports]
  norm_num
  rw [simulatedReports]
  norm_num

/-- C4 (amended).  In the measured read loop of `downloadWithAuth`: the
reported progress sequence is non-decreasing, the byte counter is
non-decreasing, every report stays in `[0, 100]` (values are naturals)
provided the received bytes never exceed the declared total, and when the
chunks sum exactly to the positive declared total the final report is
exactly 100.  The direct variant's simulated progress instead ends at 105. -/
theorem c4_progress_invariants :
    (∀ (total d : Nat) (chunks : List (List Nat)),
       List.Pairwise (· ≤ ·) (progressReports total d chunks)) ∧
    (∀ (d : Nat) (chunks : List (List Nat)),
       List.Pairwise (· ≤ ·) (receivedTrace d chunks)) ∧
    (∀ (total x : Nat) (chunks : List (List Nat)), 0 < total →
       sumLens chunks ≤ total → x ∈ progressReports total 0 chunks → x ≤ 100) ∧
    (∀ (total : Nat) (chunks : List (List Nat)), 0 < total → chunks ≠ [] →
       sumLens chunks = total → (progressReports total 0 chunks).getLast? = some 100) ∧
    simulatedReports 0 = [15, 30, 45, 60, 75, 90, 105] :=
  ⟨fun total d chunks => progressReports_pairwise total chunks d,
   fun d chunks => receivedTrace_pairwise chunks d,
   fun total x chunks htot hle hx => progressReports_le_100 total chunks 0 x htot (by omega) hx,
   fun total chunks htot hne hsum => progressReports_getLast total chunks 0 htot hne (by omega),
   simulatedReports_value⟩

set_option maxRecDepth 8192 in
/-- C4 witness: the bound and the exact final report on the 4 × 256 = 1024
scenario. -/
theorem c4_progress_invariants_witness :
    (progressReports 1024 0 [List.replicate 256 1, List.replicate 256 2,
       List.replicate 256 3, List.replicate 256 4]).getLast? = some 100 :=
  c4_progress_invariants.2.2.2.1 1024
    [List.replicate 256 1, List.replicate 256 2, List.replicate 256 3, List.replicate 256 4]
    (by omega) (by simp) (by norm_num [sumLens])

/-- C4 counterexample: the claim demands every report lie in `[0, 100]`, but
the direct variant's simulated progress reports 105 on every download, and
the measured loop reports 200 when the stream delivers more bytes (two) than
the declared total (one). -/
theorem c4_progress_counterexample :
    (105 ∈ (downloadRepository "octocat" "Hello-World" "master").reports ∧ 100 < 105) ∧
    (progressReports 1 0 [[0, 0]] = [200] ∧ 100 < 200) := by
  constructor
  · constructor
    · have h : (downloadRepository "octocat" "Hello-World" "master").reports =
          simulatedReports 0 := rfl
      rw [h, simulatedReports_value]
      decide
    · omega
  · exact ⟨by decide, by omega⟩

/-! ### Claim C5 — the 1024-byte end-to-end scenario -/

/-- A 256-byte chunk filled with the value `v`. -/
def chunk256 (v : Nat) : List Nat := List.replicate 256 v

/-- The codeload URL the concrete scenario redirects to. -/
def codeloadUrl : String := "https://codeload.github.com/octocat/Hello-World/zip/master"

/-- The 200 archive response of the concrete scenario: declared length 1024,
body delivered in four 256-byte chunks. -/
def helloArchiveResponse : HttpResponse :=
  { status := 200, contentLength := some 1024,
    bodyChunks := some [chunk256 1, chunk256 2, chunk256 3, chunk256 4] }

/-- Remote state of the concrete scenario: a 302 with a location, then the
200 archive response. -/
def remoteHello : Remote :=
  { branchesResponse := { status := 200 },
    branchesBody := [mkBranch "master"],
    apiResponse := { status := 302, location := some codeloadUrl },
    archiveResponse := helloArchiveResponse }

set_option maxRecDepth 8192 in
/-- C5. On the 1024-byte scenario for `octocat/Hello-World` on `master`, the
reported progress sequence is exactly `[25, 50, 75, 100]`, the outcome is a
success with suggested filename `Hello-World-master.zip`, and the returned
buffer is the concatenation of the four chunks in arrival order — 1024
bytes. -/
theorem c5_hello_world_scenario :
    downloadWithAuth "octocat" "Hello-World" "master" none remoteHello =
      (DownloadResult.success "Hello-World-master.zip"
        (chunk256 1 ++ chunk256 2 ++ chunk256 3 ++ chunk256 4) [25, 50, 75, 100],
       [{ url := apiZipballUrl "octocat" "Hello-World" "master", authToken := none },
        { url := codeloadUrl, authToken := none }]) ∧
    (chunk256 1 ++ chunk256 2 ++ chunk256 3 ++ chunk256 4).length = 1024 := by
  constructor
  · decide
  · decide

/-! ### Claim C7 — redirect without location -/

/-- C7. In the API-redirect strategy, a 302 first response without a
`location` header fails with the redirect message, and the request list
stops at the single API request: no second fetch is issued. -/
theorem c7_redirect_without_location :
    ∀ (owner repo branch : String) (token : Option String) (remote : Remote),
      remote.apiResponse.status = 302 → remote.apiResponse.location = none →
      downloadWithAuth owner repo branch token remote =
        (DownloadResult.failure redirectMsg,
         [{ url := apiZipballUrl owner repo branch, authToken := token }]) := by
  intro owner repo branch token remote h302 hloc
  simp [downloadWithAuth, h302, hloc]

/-- Remote state with a bare 302. -/
def remoteNoLocation : Remote :=
  { branchesResponse := { status := 200 },
    branchesBody := [],
    apiResponse := { status := 302 },
    archiveResponse := { status := 200 } }

/-- C7 witness: the concrete bare-302 remote. -/
theorem c7_redirect_without_location_witness :
    downloadWithAuth "octocat" "Hello-World" "master" none remoteNoLocation =
      (DownloadResult.failure redirectMsg,
       [{ url := apiZipballUrl "octocat" "Hello-World" "master", authToken := none }]) :=
  c7_redirect_without_location "octocat" "Hello-World" "master" none remoteNoLocation rfl rfl

/-! ### Claim C8 — terminal success status on the first response -/

/-- Remote state whose first (API) response is itself a 200 with a readable
two-byte body. -/
def remoteDirect200 : Remote :=
  { branchesResponse := { status := 200 },
    branchesBody := [],
    apiResponse := { status := 200, contentLength := some 2, bodyChunks := some [[1, 2]] },
    archiveResponse := { status := 200 } }

/-- C8 counterexample: the claim says a terminal success status on the first
response is treated as the archive and the retrieval succeeds; the code
instead throws `GitHub API error: 200` and issues no second fetch. -/
theorem c8_counterexample :
    respOk remoteDirect200.apiResponse = true ∧
    downloadWithAuth "octocat" "Hello-World" "master" none remoteDirect200 =
      (DownloadResult.failure "GitHub API error: 200",
       [{ url := apiZipballUrl "octocat" "Hello-World" "master", authToken := none }]) := by
  constructor
  · decide
  · decide

/-- C8 (amended).  A first response with a terminal success status (fetch-ok,
so in particular not 302, 404 or 401) makes `downloadWithAuth` fail with
`GitHub API error: <status>` after the single API request; its body is never
read. -/
theorem c8_success_status_fails :
    ∀ (owner repo branch : String) (token : Option String) (remote : Remote),
      respOk remote.apiResponse = true →
      downloadWithAuth owner repo branch token remote =
        (DownloadResult.failure ("GitHub API error: " ++ toString remote.apiResponse.status),
         [{ url := apiZipballUrl owner repo branch, authToken := token }]) := by
  intro owner repo branch token remote hok
  have hrange : 200 ≤ remote.apiResponse.status ∧ remote.apiResponse.status ≤ 299 := by
    unfold respOk at hok
    rw [Bool.and_eq_true, Nat.ble_eq, Nat.ble_eq] at hok
    exact hok
  have h302 : (remote.apiResponse.status == 302) = false := by
    rw [beq_eq_false_iff_ne]
    omega
  have h404 : (remote.apiResponse.status == 404) = false := by
    rw [beq_eq_false_iff_ne]
    omega
  have h401 : (remote.apiResponse.status == 401) = false := by
    rw [beq_eq_false_iff_ne]
    omega
  simp [downloadWithAuth, h302, h404, h401]

/-- C8 witness: the amended mapping at the concrete 200 remote. -/
theorem c8_success_status_fails_witness :
    downloadWithAuth "octocat" "Hello-World" "master" none remoteDirect200 =
      (DownloadResult.failure
        ("GitHub API error: " ++ toString remoteDirect200.apiResponse.status),
       [{ url := apiZipballUrl "octocat" "Hello-World" "master", authToken := none }]) :=
  c8_success_status_fails "octocat" "Hello-World" "master" none remoteDirect200 (by decide)

/-! ### Claim C2 — private download with empty credential -/

/-- In the API variant, a private attempt with an empty token never reaches
the network: the request list is empty and the outcome is one of the local
validation messages. -/
theorem handleDownload_private_empty (st : AppState) (remote : Remote)
    (hp : st.isPrivate = true) (ht : st.token = "") :
    (handleDownload st remote).2 = [] ∧
    ∃ m ∈ validationMsgs, (handleDownload st remote).1 = Outcome.failed m := by
  have hcond : (st.isPrivate && (st.token == "")) = true := by
    rw [hp, ht]
    rfl
  unfold handleDownload
  by_cases h1 : (st.repoUrl == "") = true
  · rw [if_pos h1]
    exact ⟨rfl, "Please enter a repository URL", by decide, rfl⟩
  · rw [if_neg h1]
    by_cases h2 : ((!validateGitHubUrl st.repoUrl) = true)
    · rw [if_pos h2]
      exact ⟨rfl, "Please enter a valid GitHub repository URL", by decide, rfl⟩
    · rw [if_neg h2]
      by_cases h3 : (st.selectedBranch == "") = true
      · rw [if_pos h3]
        exact ⟨rfl, "Please select a branch to download", by decide, rfl⟩
      · rw [if_neg h3, if_pos hcond]
        exact ⟨rfl, "Private repositories require a GitHub token", by decide, rfl⟩

/-- With otherwise valid inputs, the failure is precisely the missing-token
message. -/
theorem handleDownload_private_empty_msg (st : AppState) (remote : Remote)
    (hp : st.isPrivate = true) (ht : st.token = "") (hurl : st.repoUrl ≠ "")
    (hvalid : validateGitHubUrl st.repoUrl = true) (hbranch : st.selectedBranch ≠ "") :
    handleDownload st remote =
      (Outcome.failed "Private repositories require a GitHub token", []) := by
  have hcond : (st.isPrivate && (st.token == "")) = true := by
    rw [hp, ht]
    rfl
  have h1 : ¬((st.repoUrl == "") = true) := fun hh => hurl (eq_of_beq hh)
  have h2 : ¬((!validateGitHubUrl st.repoUrl) = true) := by
    rw [hvalid]
    decide
  have h3 : ¬((st.selectedBranch == "") = true) := fun hh => hbranch (eq_of_beq hh)
  unfold handleDownload
  rw [if_neg h1, if_neg h2, if_neg h3, if_pos hcond]

/-- C2 (amended).  In the API variant, a download attempt with
`isPrivate = true` and an empty credential fails locally — zero requests are
issued and the outcome is a validation message, specifically the
missing-token message when everything else is valid.  The direct variant,
however, never consults `isPrivate` or `token` at all. -/
theorem c2_private_download_guard :
    (∀ (st : AppState) (remote : Remote), st.isPrivate = true → st.token = "" →
       (handleDownload st remote).2 = [] ∧
       ∃ m ∈ validationMsgs, (handleDownload st remote).1 = Outcome.failed m) ∧
    (∀ (st : AppState) (remote : Remote), st.isPrivate = true → st.token = "" →
       st.repoUrl ≠ "" → validateGitHubUrl st.repoUrl = true → st.selectedBranch ≠ "" →
       handleDownload st remote =
         (Outcome.failed "Private repositories require a GitHub token", [])) ∧
    (∀ (st : AppStateDirect) (b : Bool) (t : String),
       handleDownloadDirect { st with isPrivate := b, token := t } =
         handleDownloadDirect st) :=
  ⟨fun st remote hp ht => handleDownload_private_empty st remote hp ht,
   fun st remote hp ht hurl hvalid hbranch =>
     handleDownload_private_empty_msg st remote hp ht hurl hvalid hbranch,
   fun _ _ _ => rfl⟩

/-- C2 witness: a concrete private, token-less state with valid URL and
branch short-circuits to the missing-token failure with no requests. -/
theorem c2_private_download_guard_witness :
    handleDownload
      { repoUrl := "https://github.com/acme/widgets", selectedBranch := "main",
        token := "", isPrivate := true } remoteNoLocation =
      (Outcome.failed "Private repositories require a GitHub token", []) :=
  c2_private_download_guard.2.1
    { repoUrl := "https://github.com/acme/widgets", selectedBranch := "main",
      token := "", isPrivate := true } remoteNoLocation rfl rfl (by decide) (by decide)
    (by decide)

/-- The direct-variant state of the C2 counterexample: marked private with an
empty credential. -/
def privateNoTokenState : AppStateDirect :=
  { repoUrl := "https://github.com/acme/widgets", selectedBranch := "main",
    customBranch := "", token := "", isPrivate := true }

/-- C2 counterexample: in the direct variant the same private, token-less
attempt does not fail — it initiates the archive download. -/
theorem c2_private_download_guard_counterexample :
    privateNoTokenState.isPrivate = true ∧ privateNoTokenState.token = "" ∧
    handleDownloadDirect privateNoTokenState =
      OutcomeDirect.initiated
        "Download initiated for widgets (main branch). Check your downloads folder."
        (downloadRepository "acme" "widgets" "main") ∧
    (downloadRepository "acme" "widgets" "main").downloadUrl =
      "https://github.com/acme/widgets/archive/refs/heads/main.zip" :=
  ⟨rfl, rfl, rfl, rfl⟩

/-! ### Claim C6 — status mapping -/

/-- Branch listing: 404 maps to the not-found message. -/
theorem fetchBranches_404 (o r : String) (t : Option String) (remote : Remote)
    (h : remote.branchesResponse.status = 404) :
    (fetchBranches o r t remote).1 = Except.error branchesNotFoundMsg := by
  simp [fetchBranches, fetchBranchesResult, h]

/-- Branch listing: 401 maps to the auth message. -/
theorem fetchBranches_401 (o r : String) (t : Option String) (remote : Remote)
    (h : remote.branchesResponse.status = 401) :
    (fetchBranches o r t remote).1 = Except.error authMsg := by
  simp [fetchBranches, fetchBranchesResult, h]

/-- Branch listing: any other non-ok status maps to the generic API-error
message carrying the raw status. -/
theorem fetchBranches_other (o r : String) (t : Option String) (remote : Remote)
    (h404 : remote.branchesResponse.status ≠ 404)
    (h401 : remote.branchesResponse.status ≠ 401)
    (hok : respOk remote.branchesResponse = false) :
    (fetchBranches o r t remote).1 =
      Except.error ("GitHub API error: " ++ toString remote.branchesResponse.status) := by
  have b404 : (remote.branchesResponse.status == 404) = false := by
    rw [beq_eq_false_iff_ne]
    exact h404
  have b401 : (remote.branchesResponse.status == 401) = false := by
    rw [beq_eq_false_iff_ne]
    exact h401
  simp [fetchBranches, fetchBranchesResult, b404, b401, hok]

/-- First archive response: 404 maps to the not-found message. -/
theorem downloadWithAuth_404 (o r b : String) (t : Option String) (remote : Remote)
    (h : remote.apiResponse.status = 404) :
    (downloadWithAuth o r b t remote).1 =
      DownloadResult.failure "Repository or branch not found" := by
  simp [downloadWithAuth, h]

/-- First archive response: 401 maps to the auth message. -/
theorem downloadWithAuth_401 (o r b : String) (t : Option String) (remote : Remote)
    (h : remote.apiResponse.status = 401) :
    (downloadWithAuth o r b t remote).1 = DownloadResult.failure authMsg := by
  simp [downloadWithAuth, h]

/-- First archive response: any status other than 302, 404 and 401 maps to
the generic API-error message carrying the raw status. -/
theorem downloadWithAuth_other (o r b : String) (t : Option String) (remote : Remote)
    (h302 : remote.apiResponse.status ≠ 302)
    (h404 : remote.apiResponse.status ≠ 404)
    (h401 : remote.apiResponse.status ≠ 401) :
    (downloadWithAuth o r b t remote).1 =
      DownloadResult.failure ("GitHub API error: " ++ toString remote.apiResponse.status) := by
  have b302 : (remote.apiResponse.status == 302) = false := by
    rw [beq_eq_false_iff_ne]
    exact h302
  have b404 : (remote.apiResponse.status == 404) = false := by
    rw [beq_eq_false_iff_ne]
    exact h404
  have b401 : (remote.apiResponse.status == 401) = false := by
    rw [beq_eq_false_iff_ne]
    exact h401
  simp [downloadWithAuth, b302, b404, b401]

/-- Second (followed) archive response: any non-ok status — including 404 and
401 — maps to `Download failed: <status>`. -/
theorem downloadWithAuth_archive_error (o r b : String) (t : Option String)
    (remote : Remote) (u : String)
    (h302 : remote.apiResponse.status = 302)
    (hloc : remote.apiResponse.location = some u)
    (hok : respOk remote.archiveResponse = false) :
    (downloadWithAuth o r b t remote).1 =
      DownloadResult.failure ("Download failed: " ++ toString remote.archiveResponse.status) := by
  simp [downloadWithAuth, h302, hloc, archiveFetchResult, hok]

/-- Second archive response: ok but with no readable stream maps to the
stream message. -/
theorem downloadWithAuth_stream (o r b : String) (t : Option String)
    (remote : Remote) (u : String)
    (h302 : remote.apiResponse.status = 302)
    (hloc : remote.apiResponse.location = some u)
    (hok : respOk remote.archiveResponse = true)
    (hbody : remote.archiveResponse.bodyChunks = none) :
    (downloadWithAuth o r b t remote).1 = DownloadResult.failure streamMsg := by
  simp [downloadWithAuth, h302, hloc, archiveFetchResult, hok, hbody]

/-- The direct variant can only fail with one of its local validation
messages: it observes no response status whatsoever. -/
theorem handleDownloadDirect_failed_msgs (st : AppStateDirect) (msg : String)
    (h : handleDownloadDirect st = OutcomeDirect.failed msg) :
    msg ∈ directValidationMsgs := by
  unfold handleDownloadDirect at h
  split at h
  · injection h with h2
    rw [← h2]
    decide
  · split at h
    · injection h with h2
      rw [← h2]
      decide
    · split at h
      · injection h with h2
        rw [← h2]
        decide
      · split at h
        · injection h with h2
          rw [← h2]
          decide
        · exact OutcomeDirect.noConfusion h

/-- C6 (amended).  For the branch-listing request and the first response of
the API-redirect retrieval: 404 maps to the not-found message, 401 to the
auth message, and any other non-expected status to the generic
`GitHub API error: <status>` carrying the raw status.  A successful second
(archive) response without a readable stream maps to the stream message, but
a non-success second response — even a 404 or 401 — maps to the generic
`Download failed: <status>`, and the direct strategy observes no statuses at
all: its only failures are local validation messages. -/
theorem c6_status_mapping :
    (∀ (o r : String) (t : Option String) (remote : Remote),
       remote.branchesResponse.status = 404 →
       (fetchBranches o r t remote).1 = Except.error branchesNotFoundMsg) ∧
    (∀ (o r : String) (t : Option String) (remote : Remote),
       remote.branchesResponse.status = 401 →
       (fetchBranches o r t remote).1 = Except.error authMsg) ∧
    (∀ (o r : String) (t : Option String) (remote : Remote),
       remote.branchesResponse.status ≠ 404 → remote.branchesResponse.status ≠ 401 →
       respOk remote.branchesResponse = false →
       (fetchBranches o r t remote).1 =
         Except.error ("GitHub API error: " ++ toString remote.branchesResponse.status)) ∧
    (∀ (o r b : String) (t : Option String) (remote : Remote),
       remote.apiResponse.status = 404 →
       (downloadWithAuth o r b t remote).1 =
         DownloadResult.failure "Repository or branch not found") ∧
    (∀ (o r b : String) (t : Option String) (remote : Remote),
       remote.apiResponse.status = 401 →
       (downloadWithAuth o r b t remote).1 = DownloadResult.failure authMsg) ∧
    (∀ (o r b : String) (t : Option String) (remote : Remote),
       remote.apiResponse.status ≠ 302 → remote.apiResponse.status ≠ 404 →
       remote.apiResponse.status ≠ 401 →
       (downloadWithAuth o r b t remote).1 =
         DownloadResult.failure ("GitHub API error: " ++ toString remote.apiResponse.status)) ∧
    (∀ (o r b : String) (t : Option String) (remote : Remote) (u : String),
       remote.apiResponse.status = 302 → remote.apiResponse.location = some u →
       respOk remote.archiveResponse = false →
       (downloadWithAuth o r b t remote).1 =
         DownloadResult.failure
           ("Download failed: " ++ toString remote.archiveResponse.status)) ∧
    (∀ (o r b : String) (t : Option String) (remote : Remote) (u : String),
       remote.apiResponse.status = 302 → remote.apiResponse.location = some u →
       respOk remote.archiveResponse = true → remote.archiveResponse.bodyChunks = none →
       (downloadWithAuth o r b t remote).1 = DownloadResult.failure streamMsg) ∧
    (∀ (st : AppStateDirect) (msg : String),
       handleDownloadDirect st = OutcomeDirect.failed msg → msg ∈ directValidationMsgs) :=
  ⟨fetchBranches_404, fetchBranches_401, fetchBranches_other,
   downloadWithAuth_404, downloadWithAuth_401, downloadWithAuth_other,
   downloadWithAuth_archive_error, downloadWithAuth_stream,
   handleDownloadDirect_failed_msgs⟩

/-- Remote state whose redirect is followed into a 404 archive response. -/
def remoteArchive404 : Remote :=
  { branchesResponse := { status := 200 },
    branchesBody := [],
    apiResponse := { status := 302, location := some codeloadUrl },
    archiveResponse := { status := 404 } }

/-- C6 counterexample: the claim says a 404 yields `NotFoundError` for both
retrieval strategies, but a 404 on the second (archive) fetch of the
API-redirect strategy yields the generic network message
`Download failed: 404`, which is neither of the two not-found messages. -/
theorem c6_status_mapping_counterexample :
    remoteArchive404.archiveResponse.status = 404 ∧
    (downloadWithAuth "octocat" "Hello-World" "master" none remoteArchive404).1 =
      DownloadResult.failure ("Download failed: " ++ toString 404) ∧
    ("Download failed: " ++ toString 404) ∉ notFoundMsgs := by
  refine ⟨rfl, by decide, by decide⟩

/-- Remote state whose branch listing returns 404. -/
def remoteBranches404 : Remote :=
  { branchesResponse := { status := 404 },
    branchesBody := [],
    apiResponse := { status := 302 },
    archiveResponse := { status := 200 } }

/-- C6 witness: the 404 mapping of the branch listing at a concrete remote. -/
theorem c6_status_mapping_witness :
    (fetchBranches "acme" "widgets" none remoteBranches404).1 =
      Except.error branchesNotFoundMsg :=
  c6_status_mapping.1 "acme" "widgets" none remoteBranches404 rfl

/-! ### Claim C10 — the credential is inert for public repositories -/

/-- With no token supplied, neither request of `downloadWithAuth` carries an
`Authorization` header. -/
theorem downloadWithAuth_requests_auth (o r b : String) (remote : Remote) :
    ∀ req ∈ (downloadWithAuth o r b none remote).2, req.authToken = none := by
  intro req hreq
  simp only [downloadWithAuth] at hreq
  split at hreq
  · split at hreq
    · rw [List.mem_singleton] at hreq
      rw [hreq]
    · rcases List.mem_cons.mp hreq with h | h
      · rw [h]
      · rw [List.mem_singleton] at h
        rw [h]
  · split at hreq
    · rw [List.mem_singleton] at hreq
      rw [hreq]
    · split at hreq
      · rw [List.mem_singleton] at hreq
        rw [hreq]
      · rw [List.mem_singleton] at hreq
        rw [hreq]

/-- For a public repository, changing the token does not change
`loadBranches` at all. -/
theorem loadBranches_public_eq (st : AppState) (t2 : String) (remote : Remote)
    (hp : st.isPrivate = false) :
    loadBranches { st with token := t2 } remote = loadBranches st remote := by
  simp [loadBranches, hp]

/-- For a public repository, changing the token does not change
`handleDownload` at all. -/
theorem handleDownload_public_eq (st : AppState) (t2 : String) (remote : Remote)
    (hp : st.isPrivate = false) :
    handleDownload { st with token := t2 } remote = handleDownload st remote := by
  simp [handleDownload, hp]

/-- For a public repository, no request of `loadBranches` carries an
`Authorization` header. -/
theorem loadBranches_public_auth (st : AppState) (remote : Remote)
    (hp : st.isPrivate = false) :
    ∀ req ∈ (loadBranches st remote).2, req.authToken = none := by
  intro req hreq
  simp only [loadBranches, hp, Bool.false_eq_true, if_false] at hreq
  split at hreq
  · exact absurd hreq (by simp)
  · split at hreq
    · exact absurd hreq (by simp)
    · split at hreq
      · exact absurd hreq (by simp)
      · split at hreq
        · rename_i bs reqs heq
          have hsnd := congrArg Prod.snd heq
          subst hsnd
          simp [fetchBranches] at hreq
          rw [hreq]
        · rename_i msg reqs heq
          have hsnd := congrArg Prod.snd heq
          subst hsnd
          simp [fetchBranches] at hreq
          rw [hreq]

/-- For a public repository, no request of `handleDownload` carries an
`Authorization` header. -/
theorem handleDownload_public_auth (st : AppState) (remote : Remote)
    (hp : st.isPrivate = false) :
    ∀ req ∈ (handleDownload st remote).2, req.authToken = none := by
  intro req hreq
  simp only [handleDownload, hp, Bool.false_and, Bool.false_eq_true, if_false] at hreq
  split at hreq
  · exact absurd hreq (by simp)
  · split at hreq
    · exact absurd hreq (by simp)
    · split at hreq
      · exact absurd hreq (by simp)
      · split at hreq
        · exact absurd hreq (by simp)
        · split at hreq
          · rename_i f b rep reqs heq
            have hsnd := congrArg Prod.snd heq
            subst hsnd
            exact downloadWithAuth_requests_auth _ _ _ remote req hreq
          · rename_i msg reqs heq
            have hsnd := congrArg Prod.snd heq
            subst hsnd
            exact downloadWithAuth_requests_auth _ _ _ remote req hreq

/-- C10.  When the repository is marked public, the credential string is
inert: runs that differ only in the token are identical for both the branch
loader and the download handler, and no issued request carries an
`Authorization` header. -/
theorem c10_public_credential_noninterference :
    ∀ (st : AppState) (t2 : String) (remote : Remote), st.isPrivate = false →
      loadBranches { st with token := t2 } remote = loadBranches st remote ∧
      handleDownload { st with token := t2 } remote = handleDownload st remote ∧
      (∀ req ∈ (loadBranches st remote).2, req.authToken = none) ∧
      (∀ req ∈ (handleDownload st remote).2, req.authToken = none) :=
  fun st t2 remote hp =>
    ⟨loadBranches_public_eq st t2 remote hp,
     handleDownload_public_eq st t2 remote hp,
     loadBranches_public_auth st remote hp,
     handleDownload_public_auth st remote hp⟩

/-- The concrete public state of the C10 witness. -/
def publicState : AppState :=
  { repoUrl := "https://github.com/acme/widgets", selectedBranch := "main",
    token := "", isPrivate := false }

/-- C10 witness: replacing the token by a concrete secret changes nothing at
a concrete public state. -/
theorem c10_public_credential_noninterference_witness :
    loadBranches { publicState with token := "ghp-secret" } remoteHello =
      loadBranches publicState remoteHello ∧
    handleDownload { publicState with token := "ghp-secret" } remoteHello =
      handleDownload publicState remoteHello :=
  ⟨(c10_public_credential_noninterference publicState "ghp-secret" remoteHello rfl).1,
   (c10_public_credential_noninterference publicState "ghp-secret" remoteHello rfl).2.1⟩
